import Mathlib

set_option maxRecDepth 8000

namespace AirflowSpec

/-! Shallow embedding of the workflow-definition / dependency-graph core that
the tutorial script (src/tutorial.py) drives.  The tutorial file is caller
code: it builds one DAG named "tutorial" with a default-argument mapping,
three BashOperator tasks and a set of dependency declarations.  The engine
behind those calls is not part of the repository's files, so every engine
operation below is modelled from the spec; the concrete data (default_args,
the task argument mappings, the templated command) is translated from
src/tutorial.py. -/

/-- Configuration values as they occur in src/tutorial.py: strings, booleans,
naturals, string lists, the relative date days_ago(n) and timedelta
durations. -/
inductive Value where
  | str (s : String)
  | nat (n : Nat)
  | bool (b : Bool)
  | strList (l : List String)
  | daysAgo (n : Nat)
  | durationDays (n : Nat)
  | durationMinutes (n : Nat)
deriving DecidableEq, Repr

/-- Modelled from the spec: a ConfigLayer is an ordered mapping from option
name to value. -/
abbrev ConfigLayer := List (String × Value)

/-- First-occurrence lookup in an ordered association list. -/
def lookupKey {α : Type} (m : List (String × α)) (k : String) : Option α :=
  match m with
  | [] => none
  | (k', v) :: rest => if k' = k then some v else lookupKey rest k

/-- Modelled from the spec: merge(explicit, defaults, operator_defaults)
returns one flattened mapping applying precedence explicit > defaults >
operator built-ins, key by key; unset keys fall through. -/
def merge (explicitArgs defaults opDefaults : ConfigLayer) : ConfigLayer :=
  explicitArgs
    ++ defaults.filter (fun p => (lookupKey explicitArgs p.1).isNone)
    ++ opDefaults.filter
        (fun p => (lookupKey explicitArgs p.1).isNone
          && (lookupKey defaults p.1).isNone)

lemma lookupKey_append {α : Type} (a b : List (String × α)) (k : String) :
    lookupKey (a ++ b) k =
      match lookupKey a k with
      | some v => some v
      | none => lookupKey b k := by
  induction a with
  | nil => simp [lookupKey]
  | cons p rest ih =>
      obtain ⟨k', v⟩ := p
      by_cases h : k' = k <;> simp [lookupKey, h, ih]

lemma lookupKey_filter {α : Type} (l : List (String × α)) (q : String → Bool)
    (k : String) :
    lookupKey (l.filter (fun p => q p.1)) k =
      if q k then lookupKey l k else none := by
  induction l with
  | nil => simp [lookupKey]
  | cons p rest ih =>
      obtain ⟨k', v⟩ := p
      by_cases hq : q k'
      · by_cases h : k' = k
        · subst h; simp [lookupKey, hq]
        · simp [lookupKey, hq, h, ih]
      · by_cases h : k' = k
        · subst h
          simp [lookupKey, hq, ih, List.filter]
        · simp [lookupKey, hq, h, ih, List.filter]

/-- The tutorial's default_args dictionary (src/tutorial.py lines 41-63),
including the misspelled key written 'emai' in the source. -/
def default_args : ConfigLayer :=
  [("owner", .str "airflow"),
   ("depends_on_past", .bool false),
   ("start_date", .daysAgo 2),
   ("emai", .strList ["kevin.g.grimm1@gmail.com"]),
   ("email_on_failure", .bool false),
   ("email_on_retry", .bool false),
   ("retries", .nat 1),
   ("retry_delay", .durationMinutes 5)]

/-- Modelled from the spec: the operator registry's built-in defaults for the
shell-command operator kind are opaque; the tutorial relies on none. -/
def bash_operator_defaults : ConfigLayer := []

/-- Explicit constructor arguments of task t1 (src/tutorial.py lines 100-104). -/
def t1_args : ConfigLayer :=
  [("task_id", .str "print_date"),
   ("bash_command", .str "date")]

/-- Explicit constructor arguments of task t2 (src/tutorial.py lines 106-112);
retries is overridden to 3. -/
def t2_args : ConfigLayer :=
  [("task_id", .str "sleep"),
   ("depends_on_past", .bool false),
   ("bash_command", .str "sleep 5"),
   ("retries", .nat 3)]

/-- C2: for every key and every triple of input tiers, the merged effective
configuration takes the explicit value when the explicit tier defines the
key, otherwise the defaults value when the defaults tier defines it,
otherwise the operator built-in value; the merged value for a key is a
function of the three per-tier lookups alone, so a lower tier never
influences a higher tier's value, whatever the insertion order.  Concretely,
t2 passes retries=3 explicitly and gets 3 although default_args sets
retries=1. -/
theorem merge_precedence :
    (∀ (e d o : ConfigLayer) (k : String),
      lookupKey (merge e d o) k =
        match lookupKey e k with
        | some v => some v
        | none =>
          match lookupKey d k with
          | some v => some v
          | none => lookupKey o k) ∧
    lookupKey (merge t2_args default_args bash_operator_defaults) "retries" =
      some (.nat 3) ∧
    lookupKey default_args "retries" = some (.nat 1) := by
  refine ⟨?_, by decide, by decide⟩
  intro e d o k
  have h1 := lookupKey_filter d (fun k => (lookupKey e k).isNone) k
  have h2 := lookupKey_filter o
    (fun k => (lookupKey e k).isNone && (lookupKey d k).isNone) k
  simp only [merge, lookupKey_append]
  cases he : lookupKey e k with
  | some v => simp
  | none =>
      cases hd : lookupKey d k with
      | some v => rw [h1]; simp [he, hd]
      | none => rw [h1, h2]; simp [he, hd]

/-- Modelled from the spec: the error kinds the definition/graph core
reports; MissingRequiredField is wrapped as a ConfigError during task
creation. -/
inductive MissingFieldErr where
  | missingRequiredField (key : String)
deriving DecidableEq, Repr

/-- Modelled from the spec: graph-mutation and task-creation errors. -/
inductive Err where
  | duplicateTaskIdentifier (taskId : String)
  | unknownTask (taskId : String)
  | duplicateEdge (upstream downstream : String)
  | cycleDetected (upstream downstream : String)
  | configError (inner : MissingFieldErr)
deriving DecidableEq, Repr

/-- Modelled from the spec: the DependencyGraph holds the task identifiers in
insertion order and the directed upstream-to-downstream edges in insertion
order. -/
structure Graph where
  tasks : List String
  edges : List (String × String)
deriving DecidableEq, Repr

/-- One expansion step of forward reachability: add every target of an edge
whose source is already in the set. -/
def reachStep (edges : List (String × String)) (s : List String) : List String :=
  s ++ ((edges.filter (fun e => e.1 ∈ s)).map Prod.snd).filter (fun v => v ∉ s)

/-- Iterated expansion. -/
def reachSetAux (edges : List (String × String)) : Nat → List String → List String
  | 0, s => s
  | n + 1, s => reachSetAux edges n (reachStep edges s)

/-- Modelled from the spec: the reachability check along existing edges that
addEdge runs from the proposed downstream endpoint; u reaches every vertex
in its forward closure (including itself). -/
def reachableB (g : Graph) (u v : String) : Bool :=
  decide (v ∈ reachSetAux g.edges g.edges.length [u])

/-- A graph in which no existing edge closes a cycle: for every edge, its
upstream endpoint is not reachable from its downstream endpoint.  Every
graph built through addTask/addEdge satisfies this. -/
def acyclicB (g : Graph) : Bool :=
  g.edges.all (fun e => !(reachableB g e.2 e.1))

/-- Modelled from the spec: addTask rejects an identifier already present,
otherwise appends the task in insertion order. -/
def addTask (g : Graph) (t : String) : Except Err Graph :=
  if t ∈ g.tasks then .error (.duplicateTaskIdentifier t)
  else .ok { g with tasks := g.tasks ++ [t] }

/-- Modelled from the spec: addEdge(upstream, downstream) confirms both
endpoints exist, then that the edge is not a duplicate, then runs the
reachability check from downstream to upstream; only when all three pass is
the edge appended.  All checks run before any mutation. -/
def addEdge (g : Graph) (u v : String) : Except Err Graph :=
  if u ∉ g.tasks then .error (.unknownTask u)
  else if v ∉ g.tasks then .error (.unknownTask v)
  else if (u, v) ∈ g.edges then .error (.duplicateEdge u v)
  else if reachableB g v u then .error (.cycleDetected u v)
  else .ok { g with edges := g.edges ++ [(u, v)] }

/-- The graph state a caller observes after an addEdge call: the new state on
success, the old state untouched on failure. -/
def applyAddEdge (g : Graph) (u v : String) : Graph :=
  match addEdge g u v with
  | .ok g' => g'
  | .error _ => g

/-- Modelled from the spec: the bulk form addEdges(upstream, downstreamSet):
each pairwise edge is validated with the same rule; the first violation
aborts the whole batch. -/
def addEdges (g : Graph) (u : String) (vs : List String) : Except Err Graph :=
  match vs with
  | [] => .ok g
  | v :: rest =>
    match addEdge g u v with
    | .error e => .error e
    | .ok g' => addEdges g' u rest

/-- The graph state a caller observes after a bulk addEdges call. -/
def applyAddEdges (g : Graph) (u : String) (vs : List String) : Graph :=
  match addEdges g u vs with
  | .ok g' => g'
  | .error _ => g

lemma addEdge_ok_iff (g : Graph) (u v : String) (g' : Graph) :
    addEdge g u v = .ok g' →
      g'.tasks = g.tasks ∧ g'.edges = g.edges ++ [(u, v)] := by
  intro h
  unfold addEdge at h
  split at h
  · exact absurd h (by simp)
  · split at h
    · exact absurd h (by simp)
    · split at h
      · exact absurd h (by simp)
      · split at h
        · exact absurd h (by simp)
        · cases h; exact ⟨rfl, rfl⟩

/-- The graph used by the paired-declaration scenarios: tasks A and B with the
single edge A before B already declared. -/
def gAB : Graph := { tasks := ["A", "B"], edges := [("A", "B")] }

/-- C1: in any graph with no cycle among its existing edges, if the proposed
downstream endpoint v already reaches the proposed upstream endpoint u (v is
an ancestor of u), then addEdge(u,v) fails with CycleDetected naming the
pair, and the observed graph state is exactly unchanged. -/
theorem addEdge_cycle_unchanged (g : Graph) (u v : String)
    (hu : u ∈ g.tasks) (hv : v ∈ g.tasks)
    (hacyc : acyclicB g = true) (hreach : reachableB g v u = true) :
    addEdge g u v = .error (.cycleDetected u v) ∧ applyAddEdge g u v = g := by
  have hdup : (u, v) ∉ g.edges := by
    intro hmem
    have h := List.all_eq_true.mp hacyc (u, v) hmem
    simp only [Bool.not_eq_true'] at h
    rw [h] at hreach
    exact Bool.false_ne_true hreach
  have h1 : addEdge g u v = .error (.cycleDetected u v) := by
    simp [addEdge, hu, hv, hdup, hreach]
  exact ⟨h1, by simp [applyAddEdge, h1]⟩

/-- C1 scenario witness: after declaring A precedes B, attempting B precedes
A fails with CycleDetected and the graph still holds only the first edge. -/
theorem addEdge_cycle_unchanged_witness :
    gAB = applyAddEdge { tasks := ["A", "B"], edges := [] } "A" "B" ∧
    addEdge gAB "B" "A" = .error (.cycleDetected "B" "A") ∧
    applyAddEdge gAB "B" "A" = gAB :=
  ⟨by decide,
   (addEdge_cycle_unchanged gAB "B" "A" (by decide) (by decide) (by decide)
     (by decide)).1,
   (addEdge_cycle_unchanged gAB "B" "A" (by decide) (by decide) (by decide)
     (by decide)).2⟩

/-- C9: in any graph whose edge endpoints are tasks of the graph, re-declaring
an edge that already exists between the same ordered pair fails synchronously
with DuplicateEdge naming the pair, and the observed graph state is exactly
unchanged. -/
theorem addEdge_duplicate_unchanged (g : Graph) (u v : String)
    (hu : u ∈ g.tasks) (hv : v ∈ g.tasks) (hmem : (u, v) ∈ g.edges) :
    addEdge g u v = .error (.duplicateEdge u v) ∧ applyAddEdge g u v = g := by
  have h1 : addEdge g u v = .error (.duplicateEdge u v) := by
    simp [addEdge, hu, hv, hmem]
  exact ⟨h1, by simp [applyAddEdge, h1]⟩

/-- C9 scenario witness: in the graph where the edge t1 before t2 is already
declared, declaring it again (as the tutorial script does with
set_downstream, set_upstream and the shift operators) fails with
DuplicateEdge and leaves the graph unchanged. -/
theorem addEdge_duplicate_unchanged_witness :
    addEdge gAB "A" "B" = .error (.duplicateEdge "A" "B") ∧
    applyAddEdge gAB "A" "B" = gAB :=
  ⟨(addEdge_duplicate_unchanged gAB "A" "B" (by decide) (by decide)
      (by decide)).1,
   (addEdge_duplicate_unchanged gAB "A" "B" (by decide) (by decide)
      (by decide)).2⟩

/-- t.set_downstream(other) (src/tutorial.py line 181): declare that t
precedes other. -/
def set_downstream (g : Graph) (t other : String) : Except Err Graph :=
  addEdge g t other

/-- t.set_upstream(other) (src/tutorial.py line 186): declare that t follows
other; modelled from the spec, it is the same operation under the hood with
the endpoints read in the opposite order. -/
def set_upstream (g : Graph) (t other : String) : Except Err Graph :=
  addEdge g other t

/-- a >> b (src/tutorial.py line 191) spells a.set_downstream(b). -/
def shiftRight (g : Graph) (a b : String) : Except Err Graph :=
  set_downstream g a b

/-- a << b spells a.set_upstream(b). -/
def shiftLeft (g : Graph) (a b : String) : Except Err Graph :=
  set_upstream g a b

/-- t.set_downstream([x, ...]) (src/tutorial.py line 201) and
t >> [x, ...] (line 202): the bulk declaration. -/
def set_downstream_list (g : Graph) (t : String) (others : List String) :
    Except Err Graph :=
  addEdges g t others

/-- [x, ...] << t (src/tutorial.py line 203): each task in the list declares
t as its upstream, left to right. -/
def listShiftLeft (g : Graph) (others : List String) (t : String) :
    Except Err Graph :=
  match others with
  | [] => .ok g
  | x :: rest =>
    match set_upstream g x t with
    | .error e => .error e
    | .ok g' => listShiftLeft g' rest t

/-- C4: for every graph state and every pair of tasks, declaring "A precedes
B" and declaring "B follows A" are the same operation: set_downstream(A,B),
set_upstream(B,A) and both shift-operator spellings return the identical
result, resulting graph state and error outcome alike; likewise the three
bulk spellings t.set_downstream(list), t >> list and list << t agree. -/
theorem dependency_spelling_symmetry (g : Graph) (a b : String)
    (others : List String) :
    set_downstream g a b = set_upstream g b a ∧
    shiftRight g a b = set_downstream g a b ∧
    shiftLeft g b a = set_downstream g a b ∧
    listShiftLeft g others a = set_downstream_list g a others := by
  refine ⟨rfl, rfl, rfl, ?_⟩
  induction others generalizing g with
  | nil => rfl
  | cons x rest ih =>
      cases h : addEdge g a x with
      | error e =>
          simp [listShiftLeft, set_downstream_list, addEdges, set_upstream, h]
      | ok g' =>
          simp only [listShiftLeft, set_downstream_list, addEdges,
            set_upstream, h]
          exact ih g'

/-- C5: the bulk declaration is atomic.  If any pairwise edge violates a rule
the whole call fails with the first violation's error and the observed state
equals the exact pre-batch state: no prefix of the batch is committed.  If
every pair is valid the call succeeds and appends exactly the batch's edges
in order. -/
theorem addEdges_atomic (g : Graph) (u : String) (vs : List String) :
    (∀ e, addEdges g u vs = .error e → applyAddEdges g u vs = g) ∧
    (∀ v rest e, vs = v :: rest → addEdge g u v = .error e →
      addEdges g u vs = .error e) ∧
    (∀ g', addEdges g u vs = .ok g' →
      g'.tasks = g.tasks ∧ g'.edges = g.edges ++ vs.map (fun v => (u, v))) := by
  refine ⟨?_, ?_, ?_⟩
  · intro e h
    simp [applyAddEdges, h]
  · intro v rest e hvs h
    subst hvs
    simp [addEdges, h]
  · induction vs generalizing g with
    | nil =>
        intro g' h
        simp only [addEdges] at h
        cases h
        simp
    | cons v rest ih =>
        intro g' h
        simp only [addEdges] at h
        cases hstep : addEdge g u v with
        | error e => rw [hstep] at h; exact absurd h (by simp)
        | ok g1 =>
            rw [hstep] at h
            obtain ⟨ht1, he1⟩ := addEdge_ok_iff g u v g1 hstep
            obtain ⟨ht2, he2⟩ := ih g1 g' h
            refine ⟨ht2.trans ht1, ?_⟩
            rw [he2, he1]
            simp [List.append_assoc]

/-- C5 scenario witness: in a three-task graph, the batch A >> [B, A] fails at
its second pair (a self-cycle) and the observed state is the exact pre-batch
state, the valid first pair notwithstanding; the all-valid batch A >> [B, C]
commits exactly its two edges. -/
theorem addEdges_atomic_witness :
    addEdges { tasks := ["A", "B", "C"], edges := [] } "A" ["B", "A"] =
      .error (.cycleDetected "A" "A") ∧
    applyAddEdges { tasks := ["A", "B", "C"], edges := [] } "A" ["B", "A"] =
      { tasks := ["A", "B", "C"], edges := [] } ∧
    ({ tasks := ["A", "B", "C"], edges := [("A", "B"), ("A", "C")] } : Graph).edges =
      ({ tasks := ["A", "B", "C"], edges := [] } : Graph).edges ++
        (["B", "C"].map (fun v => ("A", v))) :=
  ⟨rfl,
   (addEdges_atomic { tasks := ["A", "B", "C"], edges := [] } "A" ["B", "A"]).1
     (.cycleDetected "A" "A") rfl,
   ((addEdges_atomic { tasks := ["A", "B", "C"], edges := [] } "A" ["B", "C"]).2.2
     { tasks := ["A", "B", "C"], edges := [("A", "B"), ("A", "C")] } rfl).2⟩

/-- Directed paths along the stored edges (the empty path included). -/
inductive PathTo (edges : List (String × String)) : String → String → Prop where
  | refl (a : String) : PathTo edges a a
  | step {a b c : String} : PathTo edges a b → (b, c) ∈ edges →
      PathTo edges a c

lemma PathTo.trans {edges : List (String × String)} {a b c : String}
    (hab : PathTo edges a b) (hbc : PathTo edges b c) : PathTo edges a c := by
  induction hbc with
  | refl => exact hab
  | step _ he ih => exact .step ih he

/-- A vertex set closed under following the stored edges forward. -/
def Closed (edges : List (String × String)) (s : List String) : Prop :=
  ∀ e ∈ edges, e.1 ∈ s → e.2 ∈ s

lemma subset_reachStep (edges : List (String × String)) (s : List String) :
    s ⊆ reachStep edges s :=
  fun _ hx => List.mem_append_left _ hx

lemma reachStep_mem {edges : List (String × String)} {s : List String}
    {a b : String} (ha : a ∈ s) (hab : (a, b) ∈ edges) :
    b ∈ reachStep edges s := by
  by_cases hb : b ∈ s
  · exact subset_reachStep edges s hb
  · apply List.mem_append_right
    refine List.mem_filter.mpr ⟨?_, by simpa using hb⟩
    exact List.mem_map.mpr ⟨(a, b), List.mem_filter.mpr ⟨hab, by simpa using ha⟩, rfl⟩

lemma closed_reachStep {edges : List (String × String)} {s : List String}
    (h : Closed edges s) : reachStep edges s = s := by
  unfold reachStep
  rw [List.filter_eq_nil_iff.mpr, List.append_nil]
  intro v hv
  simp only [List.mem_map, List.mem_filter] at hv
  obtain ⟨e, ⟨he, hsrc⟩, rfl⟩ := hv
  simp only [Bool.not_eq_true, decide_eq_false_iff_not, Decidable.not_not]
  exact h e he (by simpa using hsrc)

lemma subset_reachSetAux (edges : List (String × String)) :
    ∀ (n : Nat) (s : List String), s ⊆ reachSetAux edges n s := by
  intro n
  induction n with
  | zero => intro s; exact fun _ h => h
  | succ n ih =>
      intro s
      exact fun x hx => ih (reachStep edges s) (subset_reachStep edges s hx)

lemma reachSetAux_of_closed {edges : List (String × String)} :
    ∀ (n : Nat) {s : List String}, Closed edges s → reachSetAux edges n s = s := by
  intro n
  induction n with
  | zero => intro s _; rfl
  | succ n ih =>
      intro s h
      show reachSetAux edges n (reachStep edges s) = s
      rw [closed_reachStep h, ih h]

lemma filter_length_le {α : Type} (p q : α → Bool) :
    ∀ (l : List α), (∀ a ∈ l, p a = true → q a = true) →
      (l.filter p).length ≤ (l.filter q).length := by
  intro l
  induction l with
  | nil => intro _; simp
  | cons a t ih =>
      intro h
      have ht := ih (fun x hx => h x (List.mem_cons_of_mem a hx))
      by_cases hp : p a = true
      · have hq := h a (List.mem_cons_self a t) hp
        simp [List.filter, hp, hq]; omega
      · by_cases hq : q a = true
        · simp [List.filter, hp, hq]; omega
        · simp [List.filter, hp, hq]; omega

lemma filter_length_lt {α : Type} (p q : α → Bool) (l : List α)
    (hpq : ∀ a ∈ l, p a = true → q a = true) (b : α) (hb : b ∈ l)
    (hpb : p b = false) (hqb : q b = true) :
    (l.filter p).length < (l.filter q).length := by
  induction l with
  | nil => cases hb
  | cons a t ih =>
      have htle := filter_length_le p q t
        (fun x hx => hpq x (List.mem_cons_of_mem a hx))
      rcases List.mem_cons.mp hb with hba | hbt
      · subst hba
        simp [List.filter, hpb, hqb]
        omega
      · by_cases hp : p a = true
        · have hq := hpq a (List.mem_cons_self a t) hp
          have := ih (fun x hx h => hpq x (List.mem_cons_of_mem a hx) h) hbt
          simp [List.filter, hp, hq]; omega
        · have := ih (fun x hx h => hpq x (List.mem_cons_of_mem a hx) h) hbt
          by_cases hq : q a = true
          · simp [List.filter, hp, hq]; omega
          · simp [List.filter, hp, hq]; omega

/-- How many distinct edge targets are already in the set. -/
def targetsIn (edges : List (String × String)) (s : List String) : Nat :=
  (((edges.map Prod.snd).dedup).filter (fun v => v ∈ s)).length

lemma targetsIn_lt_of_not_closed {edges : List (String × String)}
    {s : List String} (h : ¬ Closed edges s) :
    targetsIn edges s < targetsIn edges (reachStep edges s) := by
  unfold Closed at h
  push_neg at h
  obtain ⟨e, he, hsrc, htgt⟩ := h
  apply filter_length_lt _ _ _ ?_ e.2 ?_ ?_ ?_
  · intro a _ ha
    simp only [decide_eq_true_eq] at ha ⊢
    exact subset_reachStep edges s ha
  · exact List.mem_dedup.mpr (List.mem_map.mpr ⟨e, he, rfl⟩)
  · simpa using htgt
  · simpa using reachStep_mem hsrc he

lemma reachSetAux_closed (edges : List (String × String)) :
    ∀ (n : Nat) (s : List String),
      ((edges.map Prod.snd).dedup).length ≤ n + targetsIn edges s →
      Closed edges (reachSetAux edges n s) := by
  intro n
  induction n with
  | zero =>
      intro s hle
      have hsub : (((edges.map Prod.snd).dedup).filter (fun v => v ∈ s)).Sublist
          ((edges.map Prod.snd).dedup) := List.filter_sublist _
      have heq := hsub.eq_of_length_le (by simpa [targetsIn] using hle)
      intro e he hsrc
      have htgt : e.2 ∈ (edges.map Prod.snd).dedup :=
        List.mem_dedup.mpr (List.mem_map.mpr ⟨e, he, rfl⟩)
      rw [← heq] at htgt
      simpa using (List.mem_filter.mp htgt).2
  | succ n ih =>
      intro s hle
      by_cases hc : Closed edges s
      · show Closed edges (reachSetAux edges n (reachStep edges s))
        rw [closed_reachStep hc, reachSetAux_of_closed n hc]
        exact hc
      · have hlt := targetsIn_lt_of_not_closed hc
        exact ih (reachStep edges s) (by omega)

lemma reachableB_complete {g : Graph} {a b : String}
    (h : PathTo g.edges a b) : reachableB g a b = true := by
  have hclosed : Closed g.edges (reachSetAux g.edges g.edges.length [a]) := by
    apply reachSetAux_closed
    have h1 : ((g.edges.map Prod.snd).dedup).length ≤ (g.edges.map Prod.snd).length :=
      (List.dedup_sublist _).length_le
    simp only [List.length_map] at h1
    omega
  unfold reachableB
  rw [decide_eq_true_eq]
  induction h with
  | refl => exact subset_reachSetAux g.edges g.edges.length [a] (by simp)
  | step _ he ih => exact hclosed _ he ih

lemma exists_cycle_edge (edges : List (String × String)) (S : List String)
    (hns : ∀ t ∈ S, ∃ u ∈ S, (u, t) ∈ edges) :
    ∀ (fuel : Nat) (t : String) (visited : List String),
      t ∈ S → visited ⊆ S → visited.Nodup → t ∉ visited →
      (∀ v ∈ visited, PathTo edges t v) →
      S.length + 1 ≤ fuel + visited.length + 1 →
      ∃ a b, (a, b) ∈ edges ∧ PathTo edges b a := by
  intro fuel
  induction fuel with
  | zero =>
      intro t visited ht hsub hnd htv _ hlen
      exfalso
      have hsub' : (t :: visited) ⊆ S := by
        intro x hx
        rcases List.mem_cons.mp hx with rfl | hx
        · exact ht
        · exact hsub hx
      have hnd' : (t :: visited).Nodup := List.nodup_cons.mpr ⟨htv, hnd⟩
      have := (List.subperm_of_subset hnd' hsub').length_le
      simp only [List.length_cons] at this
      omega
  | succ n ih =>
      intro t visited ht hsub hnd htv hpaths hlen
      obtain ⟨u, huS, hut⟩ := hns t ht
      by_cases hu1 : u = t
      · exact ⟨t, t, by rw [hu1] at hut; exact hut, .refl t⟩
      by_cases hu2 : u ∈ visited
      · exact ⟨u, t, hut, hpaths u hu2⟩
      · apply ih u (t :: visited) huS
        · intro x hx
          rcases List.mem_cons.mp hx with rfl | hx
          · exact ht
          · exact hsub hx
        · exact List.nodup_cons.mpr ⟨htv, hnd⟩
        · intro hmem
          rcases List.mem_cons.mp hmem with h | h
          · exact hu1 h
          · exact hu2 h
        · intro v hv
          rcases List.mem_cons.mp hv with rfl | hv
          · exact .step (.refl u) hut
          · exact (PathTo.step (.refl u) hut).trans (hpaths v hv)
        · simp only [List.length_cons]
          omega

lemma exists_cycle_of_no_source (edges : List (String × String))
    (S : List String) (hne : S ≠ [])
    (hns : ∀ t ∈ S, ∃ u ∈ S, (u, t) ∈ edges) :
    ∃ a b, (a, b) ∈ edges ∧ PathTo edges b a := by
  obtain ⟨t, ht⟩ := List.exists_mem_of_ne_nil S hne
  exact exists_cycle_edge edges S hns S.length t [] ht
    (by intro x hx; cases hx) List.nodup_nil (by intro h; cases h)
    (by intro v hv; cases hv) (by simp)

/-- A task with no incoming edge from a still-remaining task: ready to be
emitted. -/
def noIncoming (edges : List (String × String)) (remaining : List String)
    (t : String) : Bool :=
  edges.all (fun e => !(decide (e.2 = t) && decide (e.1 ∈ remaining)))

/-- Modelled from the spec: Kahn's algorithm with the tie-break that, at each
step, the earliest-inserted remaining task all of whose not-yet-emitted
predecessors are exhausted is emitted next; none models the CycleDetected
outcome. -/
def topoAux (edges : List (String × String)) :
    Nat → List String → Option (List String)
  | 0, remaining => if remaining = [] then some [] else none
  | n + 1, remaining =>
    if remaining = [] then some []
    else
      match remaining.find? (noIncoming edges remaining) with
      | none => none
      | some t => (topoAux edges n (remaining.erase t)).map (fun l => t :: l)

/-- Modelled from the spec: topologicalOrder() linearizes the whole task set;
a deterministic function of the graph value, hence of the addTask/addEdge
call sequence that built it. -/
def topologicalOrder (g : Graph) : Option (List String) :=
  topoAux g.edges g.tasks.length g.tasks

lemma topoAux_perm (edges : List (String × String)) :
    ∀ (n : Nat) (remaining l : List String),
      topoAux edges n remaining = some l → l.Perm remaining := by
  intro n
  induction n with
  | zero =>
      intro remaining l h
      simp only [topoAux] at h
      split at h
      · cases h
        subst ‹remaining = []›
        exact List.Perm.refl []
      · cases h
  | succ n ih =>
      intro remaining l h
      simp only [topoAux] at h
      by_cases hr : remaining = []
      · rw [if_pos hr] at h
        cases h
        subst hr
        exact List.Perm.refl []
      · rw [if_neg hr] at h
        cases hf : remaining.find? (noIncoming edges remaining) with
        | none => rw [hf] at h; cases h
        | some t =>
            rw [hf] at h
            dsimp only at h
            cases hrec : topoAux edges n (remaining.erase t) with
            | none => rw [hrec] at h; cases h
            | some l' =>
                rw [hrec] at h
                simp only [Option.map_some'] at h
                cases h
                have htmem := List.mem_of_find?_eq_some hf
                exact ((ih (remaining.erase t) l' hrec).cons t).trans
                  (List.perm_cons_erase htmem).symm

lemma topoAux_before (edges : List (String × String)) :
    ∀ (n : Nat) (remaining l : List String), remaining.Nodup →
      topoAux edges n remaining = some l →
      ∀ u v, (u, v) ∈ edges → u ∈ remaining → v ∈ remaining →
      [u, v].Sublist l := by
  intro n
  induction n with
  | zero =>
      intro remaining l _ h u v _ hu _
      simp only [topoAux] at h
      split at h
      · subst ‹remaining = []›; cases hu
      · cases h
  | succ n ih =>
      intro remaining l hnd h u v he hu hv
      simp only [topoAux] at h
      by_cases hr : remaining = []
      · subst hr; cases hu
      · rw [if_neg hr] at h
        cases hf : remaining.find? (noIncoming edges remaining) with
        | none => rw [hf] at h; cases h
        | some t =>
            rw [hf] at h
            dsimp only at h
            cases hrec : topoAux edges n (remaining.erase t) with
            | none => rw [hrec] at h; cases h
            | some l' =>
                rw [hrec] at h
                simp only [Option.map_some'] at h
                cases h
                have hno : noIncoming edges remaining t = true :=
                  List.find?_some hf
                have hx := List.all_eq_true.mp hno (u, v) he
                simp only [Bool.not_eq_true', Bool.and_eq_false_iff,
                  decide_eq_false_iff_not] at hx
                have hvt : v ≠ t := by
                  intro hvteq
                  rcases hx with h1 | h2
                  · exact h1 hvteq
                  · exact h2 hu
                have hvmem : v ∈ remaining.erase t :=
                  (List.mem_erase_of_ne hvt).mpr hv
                by_cases hut : u = t
                · subst hut
                  have hvl' : v ∈ l' :=
                    (topoAux_perm edges n (remaining.erase u) l' hrec).mem_iff.mpr
                      hvmem
                  exact (List.singleton_sublist.mpr hvl').cons₂ u
                · have humem : u ∈ remaining.erase t :=
                    (List.mem_erase_of_ne hut).mpr hu
                  exact (ih (remaining.erase t) l' (hnd.erase t) hrec u v he
                    humem hvmem).cons t

lemma topoAux_isSome (g : Graph) (hacyc : acyclicB g = true) :
    ∀ (n : Nat) (remaining : List String), remaining.length ≤ n →
      (topoAux g.edges n remaining).isSome = true := by
  intro n
  induction n with
  | zero =>
      intro remaining h
      have hr : remaining = [] := List.eq_nil_of_length_eq_zero (Nat.le_zero.mp h)
      subst hr
      simp [topoAux]
  | succ n ih =>
      intro remaining hlen
      by_cases hr : remaining = []
      · subst hr; simp [topoAux]
      · simp only [topoAux, if_neg hr]
        cases hf : remaining.find? (noIncoming g.edges remaining) with
        | some t =>
            have ht := List.mem_of_find?_eq_some hf
            have hpos : 0 < remaining.length := List.length_pos.mpr hr
            have hlen' : (remaining.erase t).length ≤ n := by
              rw [List.length_erase_of_mem ht]
              omega
            have := ih (remaining.erase t) hlen'
            simpa using this
        | none =>
            exfalso
            have hns : ∀ t ∈ remaining, ∃ u ∈ remaining, (u, t) ∈ g.edges := by
              intro t ht
              have hfalse : ¬ (noIncoming g.edges remaining t = true) := by
                simpa using List.find?_eq_none.mp hf t ht
              unfold noIncoming at hfalse
              rw [List.all_eq_true] at hfalse
              push_neg at hfalse
              obtain ⟨e, he, hbe⟩ := hfalse
              simp only [Bool.not_eq_true, Bool.not_eq_false',
                Bool.and_eq_true, decide_eq_true_eq] at hbe
              exact ⟨e.1, hbe.2, by rw [← hbe.1]; exact he⟩
            obtain ⟨a, b, hab, hba⟩ :=
              exists_cycle_of_no_source g.edges remaining hr hns
            have h1 := List.all_eq_true.mp hacyc (a, b) hab
            have h2 := reachableB_complete hba
            rw [h2] at h1
            cases h1

/-- The scenario graph: tasks A, B, C in insertion order with the bulk
declaration A precedes B, A precedes C. -/
def gABC : Graph :=
  { tasks := ["A", "B", "C"], edges := [("A", "B"), ("A", "C")] }

/-- The counterexample graph for the insertion-order clause of C6: tasks
inserted A, B, C, one edge C before A. -/
def gCex : Graph := { tasks := ["A", "B", "C"], edges := [("C", "A")] }

/-- C6 (amended): for every graph with distinct task identifiers, edges
between existing tasks and no cycle, topologicalOrder() succeeds, and any
sequence it returns is a permutation of the task set in which every edge's
upstream endpoint precedes its downstream endpoint; being a pure function of
the graph value it is a deterministic function of the addTask/addEdge call
sequence, with ties broken by emitting at each step the earliest-inserted
ready task. -/
theorem topologicalOrder_spec (g : Graph) (hnd : g.tasks.Nodup)
    (hwf : ∀ e ∈ g.edges, e.1 ∈ g.tasks ∧ e.2 ∈ g.tasks)
    (hacyc : acyclicB g = true) :
    (topologicalOrder g).isSome = true ∧
    ∀ l, topologicalOrder g = some l →
      l.Perm g.tasks ∧ ∀ e ∈ g.edges, [e.1, e.2].Sublist l := by
  constructor
  · exact topoAux_isSome g hacyc g.tasks.length g.tasks le_rfl
  · intro l h
    refine ⟨topoAux_perm g.edges g.tasks.length g.tasks l h, ?_⟩
    intro e he
    exact topoAux_before g.edges g.tasks.length g.tasks l hnd h e.1 e.2
      (by exact he) (hwf e he).1 (hwf e he).2

/-- C6 scenario witness: with tasks A, B, C and the bulk declaration A
before B and A before C, topologicalOrder yields exactly A, B, C — A first,
the unconstrained pair B, C in insertion order — and the returned sequence
satisfies the amended specification. -/
theorem topologicalOrder_spec_witness :
    gABC = applyAddEdges { tasks := ["A", "B", "C"], edges := [] } "A" ["B", "C"] ∧
    topologicalOrder gABC = some ["A", "B", "C"] ∧
    (topologicalOrder gABC).isSome = true ∧
    (["A", "B", "C"] : List String).Perm gABC.tasks ∧
    ∀ e ∈ gABC.edges, [e.1, e.2].Sublist ["A", "B", "C"] :=
  ⟨by decide, by decide,
   (topologicalOrder_spec gABC (by decide) (by decide) (by decide)).1,
   ((topologicalOrder_spec gABC (by decide) (by decide) (by decide)).2
     ["A", "B", "C"] (by decide)).1,
   ((topologicalOrder_spec gABC (by decide) (by decide) (by decide)).2
     ["A", "B", "C"] (by decide)).2⟩

/-- C6 counterexample: in the acyclic graph with tasks inserted A, B, C and
the single edge C before A, the pair A, B has no relative ordering
constraint (neither reaches the other) and A precedes B in insertion order,
yet topologicalOrder returns B, C, A, where A does not precede B: no
edge-consistent linearization can put every unconstrained pair in insertion
order here, since A before B and B before C would force A before C against
the edge. -/
theorem topologicalOrder_insertion_cex :
    acyclicB gCex = true ∧
    topologicalOrder gCex = some ["B", "C", "A"] ∧
    (["A", "B"] : List String).Sublist gCex.tasks ∧
    reachableB gCex "A" "B" = false ∧
    reachableB gCex "B" "A" = false ∧
    ¬ (["A", "B"] : List String).Sublist ["B", "C", "A"] := by
  refine ⟨by decide, by decide, by decide, by decide, by decide, by decide⟩

/-- Render-time errors: an unknown macro name or a parameter key absent from
the context, naming the unresolved reference. -/
inductive RenderError where
  | unresolvedReference (name : String)
deriving DecidableEq, Repr

/-- Argument expressions of a macro invocation; they are resolved before the
macro executes. -/
inductive TemplateExpr where
  | litNat (n : Nat)
  | litStr (s : String)
  | var (name : String)
  | param (key : String)
deriving DecidableEq, Repr

/-- Modelled from the spec: the placeholder structure of a templated field —
literal text, direct context variables, macro invocations over resolved
arguments, caller-declared parameters, and a bounded repetition over a
literal range. -/
inductive Template where
  | lit (s : String)
  | seq (a b : Template)
  | var (name : String)
  | call (name : String) (args : List TemplateExpr)
  | param (key : String)
  | forRange (n : Nat) (body : Template)
deriving DecidableEq, Repr

/-- Modelled from the spec: the per-invocation ExecutionContext — direct
variables (the logical date among them), named macros (pure functions of
their resolved arguments) and caller-declared parameters. -/
structure Context where
  vars : List (String × Value)
  macros : List (String × (List Value → Value))
  params : List (String × Value)

/-- How a value is spliced into resolved text. -/
def Value.asString : Value → String
  | .str s => s
  | .nat n => Nat.repr n
  | .bool b => if b then "True" else "False"
  | .strList l => String.intercalate ", " l
  | .daysAgo n => "days_ago(" ++ Nat.repr n ++ ")"
  | .durationDays n => "timedelta(days=" ++ Nat.repr n ++ ")"
  | .durationMinutes n => "timedelta(minutes=" ++ Nat.repr n ++ ")"

/-- Resolve one argument expression against the context. -/
def evalExpr (ctx : Context) : TemplateExpr → Except RenderError Value
  | .litNat n => .ok (.nat n)
  | .litStr s => .ok (.str s)
  | .var n =>
    match lookupKey ctx.vars n with
    | some v => .ok v
    | none => .error (.unresolvedReference n)
  | .param k =>
    match lookupKey ctx.params k with
    | some v => .ok v
    | none => .error (.unresolvedReference k)

/-- Resolve a macro's argument list, left to right, inner references first. -/
def evalArgs (ctx : Context) : List TemplateExpr → Except RenderError (List Value)
  | [] => .ok []
  | a :: rest =>
    match evalExpr ctx a with
    | .error e => .error e
    | .ok v =>
      match evalArgs ctx rest with
      | .error e => .error e
      | .ok vs => .ok (v :: vs)

/-- n concatenated copies of a string. -/
def repeatStr : Nat → String → String
  | 0, _ => ""
  | n + 1, s => s ++ repeatStr n s

/-- Modelled from the spec: render scans the template, splices literal text,
resolves direct variables, parameters and macro invocations against the
context, and fails with UnresolvedReference naming the missing key or macro;
a bounded loop emits one copy of its body per iteration, each resolved
against the same immutable context (rendering is pure, so the per-iteration
resolutions coincide). -/
def render (ctx : Context) : Template → Except RenderError String
  | .lit s => .ok s
  | .seq a b =>
    match render ctx a with
    | .error e => .error e
    | .ok x =>
      match render ctx b with
      | .error e => .error e
      | .ok y => .ok (x ++ y)
  | .var n =>
    match lookupKey ctx.vars n with
    | some v => .ok v.asString
    | none => .error (.unresolvedReference n)
  | .param k =>
    match lookupKey ctx.params k with
    | some v => .ok v.asString
    | none => .error (.unresolvedReference k)
  | .call name args =>
    match evalArgs ctx args with
    | .error e => .error e
    | .ok vs =>
      match lookupKey ctx.macros name with
      | some f => .ok (f vs).asString
      | none => .error (.unresolvedReference name)
  | .forRange n body =>
    match render ctx body with
    | .error e => .error e
    | .ok s => .ok (repeatStr n s)

/-- The body of the templated_command literal (src/tutorial.py lines
151-157): echo of the logical date ds, of macros.ds_add(ds, 7) and of
params.my_param, once per loop iteration. -/
def templated_body : Template :=
  .seq (.lit "\n\techo \"") (.seq (.var "ds")
    (.seq (.lit "\"\n\techo \"") (.seq (.call "ds_add" [.var "ds", .litNat 7])
      (.seq (.lit "\"\n\techo \"") (.seq (.param "my_param") (.lit "\"\n"))))))

/-- templated_command (src/tutorial.py lines 151-157): a bounded loop over a
literal range of 5 around the body. -/
def templated_command : Template := .forRange 5 templated_body

/-- C7: rendering a parameter placeholder returns the bound value whenever
the key is present in the context's params mapping, and fails with
UnresolvedReference naming the missing key whenever it is absent — never a
silent empty rendering; an unknown macro name likewise fails with
UnresolvedReference naming it once its arguments resolve. -/
theorem render_param_resolution (ctx : Context) (k : String) (name : String)
    (args : List TemplateExpr) :
    (∀ v, lookupKey ctx.params k = some v →
      render ctx (.param k) = .ok v.asString) ∧
    (lookupKey ctx.params k = none →
      render ctx (.param k) = .error (.unresolvedReference k) ∧
      ∀ s, render ctx (.param k) ≠ .ok s) ∧
    (lookupKey ctx.macros name = none →
      ∀ vs, evalArgs ctx args = .ok vs →
        render ctx (.call name args) = .error (.unresolvedReference name)) := by
  refine ⟨?_, ?_, ?_⟩
  · intro v h
    simp [render, h]
  · intro h
    refine ⟨by simp [render, h], ?_⟩
    intro s hs
    rw [show render ctx (.param k) = .error (.unresolvedReference k)
      from by simp [render, h]] at hs
    cases hs
  · intro h vs hargs
    simp [render, hargs, h]

/-- A context binding only my_param, as task t3 passes it
(src/tutorial.py line 163). -/
def params_only_ctx : Context :=
  { vars := [], macros := [],
    params := [("my_param", .str "Parameter I passed in")] }

/-- A context with an empty params mapping and no macros. -/
def empty_ctx : Context := { vars := [], macros := [], params := [] }

/-- C7 witness: rendering the my_param placeholder against a context binding
my_param returns the bound string; against a context with empty params it
fails with UnresolvedReference naming my_param, and an unknown macro name
fails naming it. -/
theorem render_param_resolution_witness :
    render params_only_ctx (.param "my_param") = .ok "Parameter I passed in" ∧
    render empty_ctx (.param "my_param") =
      .error (.unresolvedReference "my_param") ∧
    render empty_ctx (.call "ds_add" []) =
      .error (.unresolvedReference "ds_add") :=
  ⟨(render_param_resolution params_only_ctx "my_param" "ds_add" []).1
      (.str "Parameter I passed in") rfl,
   ((render_param_resolution empty_ctx "my_param" "ds_add" []).2.1 rfl).1,
   (render_param_resolution empty_ctx "my_param" "ds_add" []).2.2 rfl [] rfl⟩

/-- C8: a template that is a bounded loop over a literal range of 5 renders,
under every context in which its body's placeholders resolve, to exactly 5
repetitions of the rendered body, each iteration resolved against the same
context. -/
theorem render_forRange_five (ctx : Context) (body : Template) (s : String)
    (h : render ctx body = .ok s) :
    render ctx (.forRange 5 body) = .ok (repeatStr 5 s) ∧
    repeatStr 5 s = s ++ (s ++ (s ++ (s ++ s))) := by
  constructor
  · simp [render, h]
  · simp [repeatStr, String.append_assoc]

/-- A run context for the templated command: the logical date ds, a model
of the ds_add macro (an opaque pure function of its resolved arguments) and
the my_param parameter. -/
def tutorial_run_ctx : Context :=
  { vars := [("ds", .str "2020-06-01")],
    macros := [("ds_add", fun vs =>
      match vs with
      | [v, .nat n] => .str (v.asString ++ "+" ++ Nat.repr n ++ "d")
      | _ => .str "")],
    params := [("my_param", .str "Parameter I passed in")] }

/-- C8 witness: the tutorial's templated command (loop over range(5)) under
a context supplying ds, the ds_add macro and my_param renders to exactly
five copies of its rendered body. -/
theorem render_forRange_five_witness :
    render tutorial_run_ctx templated_body =
      .ok "\n\techo \"2020-06-01\"\n\techo \"2020-06-01+7d\"\n\techo \"Parameter I passed in\"\n" ∧
    render tutorial_run_ctx templated_command =
      .ok (repeatStr 5
        "\n\techo \"2020-06-01\"\n\techo \"2020-06-01+7d\"\n\techo \"Parameter I passed in\"\n") :=
  ⟨rfl,
   (render_forRange_five tutorial_run_ctx templated_body
     "\n\techo \"2020-06-01\"\n\techo \"2020-06-01+7d\"\n\techo \"Parameter I passed in\"\n"
     rfl).1⟩

/-- Modelled from the spec: the mandatory-key check run once per task at
construction time; it inspects exactly the task identifier and the owner
key of the post-merge effective configuration and names whichever is
absent. -/
def validateRequired (eff : ConfigLayer) : Except MissingFieldErr Unit :=
  if (lookupKey eff "task_id").isNone then
    .error (.missingRequiredField "task_id")
  else if (lookupKey eff "owner").isNone then
    .error (.missingRequiredField "owner")
  else .ok ()

/-- A named unit of work: identifier, operator kind, post-merge effective
configuration and template-eligible fields. -/
structure TaskNode where
  taskId : String
  operatorKind : String
  effectiveConfig : ConfigLayer
  templateFields : List Template
deriving DecidableEq, Repr

/-- The top-level aggregate: unique identifier, description, the base
ConfigLayer (default_args), the scheduling interval and the owned
DependencyGraph. -/
structure WorkflowDefinition where
  dagId : String
  description : String
  defaultArgs : ConfigLayer
  scheduleInterval : Value
  graph : Graph
deriving DecidableEq, Repr

/-- Modelled from the spec: createTask merges the explicit arguments against
the definition's defaults and the operator kind's built-ins, runs
validateRequired at construction time (a failure is wrapped as ConfigError),
and only then registers the node into the owned graph via addTask. -/
def createTask (wd : WorkflowDefinition) (kind : String)
    (opDefaults explicitArgs : ConfigLayer) (templateFields : List Template) :
    Except Err (WorkflowDefinition × TaskNode) :=
  let eff := merge explicitArgs wd.defaultArgs opDefaults
  match validateRequired eff with
  | .error e => .error (.configError e)
  | .ok _ =>
    let tid := ((lookupKey eff "task_id").map Value.asString).getD ""
    match addTask wd.graph tid with
    | .error e => .error e
    | .ok g' => .ok ({ wd with graph := g' }, ⟨tid, kind, eff, templateFields⟩)

/-- The tutorial's DAG object (src/tutorial.py lines 72-77) before any task
is added. -/
def dag : WorkflowDefinition :=
  { dagId := "tutorial", description := "A simple tutorial DAG",
    defaultArgs := default_args, scheduleInterval := .durationDays 1,
    graph := { tasks := [], edges := [] } }

/-- C3: task creation fails with MissingRequiredField, wrapped as
ConfigError and naming the missing key, exactly when the post-merge
effective configuration lacks the task identifier or the owner key; the
failure is produced by createTask itself, at construction time; when both
keys are present (explicitly or through the defaults tier) createTask never
reports a missing required field. -/
theorem createTask_required_fields (wd : WorkflowDefinition) (kind : String)
    (op exp : ConfigLayer) (tf : List Template) :
    (lookupKey (merge exp wd.defaultArgs op) "task_id" = none →
      createTask wd kind op exp tf =
        .error (.configError (.missingRequiredField "task_id"))) ∧
    (lookupKey (merge exp wd.defaultArgs op) "task_id" ≠ none →
     lookupKey (merge exp wd.defaultArgs op) "owner" = none →
      createTask wd kind op exp tf =
        .error (.configError (.missingRequiredField "owner"))) ∧
    (lookupKey (merge exp wd.defaultArgs op) "task_id" ≠ none →
     lookupKey (merge exp wd.defaultArgs op) "owner" ≠ none →
      ∀ e, createTask wd kind op exp tf ≠ .error (.configError e)) := by
  refine ⟨?_, ?_, ?_⟩
  · intro h
    simp [createTask, validateRequired, h]
  · intro h1 h2
    simp [createTask, validateRequired, h1, h2]
  · intro h1 h2 e hcontra
    have hv : validateRequired (merge exp wd.defaultArgs op) = .ok () := by
      simp [validateRequired, Option.isNone_iff_eq_none, h1, h2]
    simp only [createTask, hv] at hcontra
    cases haddt : addTask wd.graph
        (((lookupKey (merge exp wd.defaultArgs op) "task_id").map
          Value.asString).getD "") with
    | error e2 =>
        rw [haddt] at hcontra
        simp only at hcontra
        unfold addTask at haddt
        split at haddt
        · cases haddt
          cases hcontra
        · cases haddt
    | ok g' =>
        rw [haddt] at hcontra
        cases hcontra

/-- A definition with no default owner (empty defaults tier). -/
def no_owner_wd : WorkflowDefinition :=
  { dagId := "d", description := "", defaultArgs := [],
    scheduleInterval := .durationDays 1, graph := { tasks := [], edges := [] } }

/-- C3 witness: creating a task that supplies a task identifier but omits
both an explicit owner and a default owner fails at construction with
ConfigError wrapping MissingRequiredField "owner"; the tutorial's t1, whose
owner comes from the defaults tier alone, is never rejected for a missing
required field. -/
theorem createTask_required_fields_witness :
    createTask no_owner_wd "bash" [] [("task_id", .str "standalone")] [] =
      .error (.configError (.missingRequiredField "owner")) ∧
    createTask dag "bash" bash_operator_defaults t1_args [] ≠
      .error (.configError (.missingRequiredField "owner")) :=
  ⟨(createTask_required_fields no_owner_wd "bash" []
      [("task_id", .str "standalone")] []).2.1 (by decide) (by decide),
   (createTask_required_fields dag "bash" bash_operator_defaults t1_args
      []).2.2 (by decide) (by decide) (.missingRequiredField "owner")⟩

/-- C10: the merge step copies every default_args key the task does not
override into the task's effective configuration with no validation of key
names — the misspelled key 'emai' flows into the effective configuration of
t1 and of t2 rather than being rejected, and task creation for t1 succeeds;
validateRequired is a function of the task-identifier and owner lookups
alone, so no other key is ever checked. -/
theorem default_args_unvalidated_flow :
    (∀ eff eff' : ConfigLayer,
      lookupKey eff "task_id" = lookupKey eff' "task_id" →
      lookupKey eff "owner" = lookupKey eff' "owner" →
      validateRequired eff = validateRequired eff') ∧
    lookupKey (merge t1_args default_args bash_operator_defaults) "emai" =
      some (.strList ["kevin.g.grimm1@gmail.com"]) ∧
    lookupKey (merge t2_args default_args bash_operator_defaults) "emai" =
      some (.strList ["kevin.g.grimm1@gmail.com"]) ∧
    (createTask dag "bash" bash_operator_defaults t1_args []).isOk = true := by
  refine ⟨?_, by decide, by decide, by decide⟩
  intro eff eff' h1 h2
  unfold validateRequired
  rw [h1, h2]

/-- C10 witness: validateRequired accepts a configuration with the
misspelled key and the same configuration without it alike — the key is
never inspected. -/
theorem default_args_unvalidated_flow_witness :
    validateRequired
        [("task_id", .str "x"), ("owner", .str "o"), ("emai", .str "z")] =
      validateRequired [("task_id", .str "x"), ("owner", .str "o")] :=
  default_args_unvalidated_flow.1
    [("task_id", .str "x"), ("owner", .str "o"), ("emai", .str "z")]
    [("task_id", .str "x"), ("owner", .str "o")] rfl rfl

end AirflowSpec
